import Mathlib

/-!
Shallow embedding of the xmem-core shared-memory buffer pool
(crates/xmem-core/src: meta_region.rs, pool.rs, guard.rs, error.rs,
storage.rs) as a sequential state-transition model.

Machine integers are modelled as `Nat` (unsigned) or `Int` (signed) with
explicit reduction modulo 2^32 where the source performs 32-bit atomic
arithmetic.  The shared metadata region is a header plus a list of
metadata records; atomic read-modify-write sequences of the source are
modelled as pure state transitions (the sequential semantics of the
lock-free loops: a CAS with no interference succeeds on its first try).
External OS services (POSIX shared memory create/open) are passed in as
an oracle `ShmEnv`.  The build modelled is the default one (the `cuda`
feature is compiled out).
-/

namespace XMem

/-- 2^32, the modulus of the 32-bit atomic counters. -/
def U32MOD : Nat := 4294967296

/-- 2^64, the modulus of the 64-bit `size` field. -/
def U64MOD : Nat := 18446744073709551616

/-- `u32::MAX`, the empty-free-list sentinel in `meta_region.rs`. -/
def EMPTY : Nat := 4294967295

/-- 2^32 - 1: adding it modulo 2^32 is the effect of a `fetch_sub(1)`
on a `u32` counter. -/
def U32DEC : Nat := 4294967295

/-- Header magic constant (meta_region.rs line 29). -/
def MAGIC : Nat := 0x584D454D

/-- Header format version (meta_region.rs line 30). -/
def VERSION : Nat := 2

/-- Wrap an integer into signed 32-bit range, the semantics of `AtomicI32`
read-modify-write results. -/
def toI32 (n : Int) : Int := (n + 2147483648) % 4294967296 - 2147483648

/-- Character-list test: does the second list start with the first? -/
def charsStartWith : List Char → List Char → Bool
  | [], _ => true
  | _ :: _, [] => false
  | p :: ps, c :: cs => p = c && charsStartWith ps cs

/-- Character-list substring test (helper for `str::contains`). -/
def charsHaveSub (pat : List Char) : List Char → Bool
  | [] => charsStartWith pat []
  | c :: cs => charsStartWith pat (c :: cs) || charsHaveSub pat cs

/-- `str::contains(pat)` on Rust string slices: substring containment. -/
def strContains (s pat : String) : Bool := charsHaveSub pat.data s.data

/-- The `Error` enum (error.rs; the `Timeout` variant is the one used by
`BufferPool::acquire_cpu_blocking` in pool.rs and documented by the spec).
The `cuda`-feature-gated variant is compiled out in the default build. -/
inductive Error where
  | SharedMemory (msg : String)
  | BufferNotFound (index : Nat)
  | TypeMismatch (expected actual : String)
  | ReadOnly
  | AlreadyForgotten
  | InvalidShape (msg : String)
  | Timeout
deriving Repr, DecidableEq

/-- The guard of the retry arm in `acquire_cpu_blocking`:
`Err(Error::SharedMemory(msg)) if msg.contains("full")`. -/
def Error.isFull : Error → Bool
  | .SharedMemory msg => strContains msg "full"
  | _ => false

/-- One buffer metadata record (meta.rs `BufferMeta`), restricted to the
fields the core reads or writes; the shape/stride/label fields are never
interpreted by the modelled operations.  `next_free` is the free-list
link used by `MetaRegion::alloc`/`free`. -/
structure BufferMeta where
  id : Nat
  ref_count : Int
  storage_type : Nat
  device_id : Nat
  size : Nat
  next_free : Nat
deriving Repr, DecidableEq, Inhabited

/-- The metadata region header (meta_region.rs `MetaRegionHeader`). -/
structure MetaRegionHeader where
  magic : Nat
  version : Nat
  capacity : Nat
  next_id : Nat
  allocated : Nat
  free_head : Nat
  waiters : Nat
deriving Repr, DecidableEq

/-- The shared metadata region: header plus the slot array.  The source
struct's `capacity` field always coincides, as a `u32`, with
`header.capacity` (set at `create`, read back at `open`), so bounds
checks use `header.capacity` here.  Slots beyond the list are the
zero-initialised record (`getD ... default`), matching the
zero-initialised fresh region. -/
structure MetaRegion where
  header : MetaRegionHeader
  slots : List BufferMeta
deriving Repr, DecidableEq

/-- Replace slot `i` by `f` of its current value. -/
def setSlot (m : MetaRegion) (i : Nat) (f : BufferMeta → BufferMeta) : MetaRegion :=
  { m with slots := m.slots.set i (f (m.slots.getD i default)) }

/-- The `ref_count` stored in slot `i`. -/
def refCountAt (m : MetaRegion) (i : Nat) : Int := (m.slots.getD i default).ref_count

/-- The `next_free` link stored in slot `i`. -/
def nextFreeAt (m : MetaRegion) (i : Nat) : Nat := (m.slots.getD i default).next_free

/-- `MetaRegion::create(name, capacity)`: fresh zeroed region with an
initialised header (meta_region.rs lines 45-61). -/
def MetaRegion.create (capacity : Nat) : MetaRegion :=
  { header := { magic := MAGIC, version := VERSION, capacity := capacity % U32MOD,
                next_id := 0, allocated := 0, free_head := EMPTY, waiters := 0 },
    slots := List.replicate capacity default }

/-- `MetaRegion::open(name)`: header validation performed on the header
found in the existing region (meta_region.rs lines 64-81). -/
def MetaRegion.openRegion (h : MetaRegionHeader) (slots : List BufferMeta) :
    Except Error MetaRegion :=
  if h.magic ≠ MAGIC then
    .error (.SharedMemory "invalid magic number")
  else if h.version ≠ VERSION then
    .error (.SharedMemory
      ("version mismatch: expected " ++ toString VERSION ++ ", got " ++ toString h.version))
  else
    .ok { header := h, slots := slots }

/-- `MetaRegion::get(index)` (meta_region.rs lines 155-163). -/
def MetaRegion.get (m : MetaRegion) (index : Nat) : Except Error BufferMeta :=
  if index ≥ m.header.capacity then .error (.BufferNotFound index)
  else .ok (m.slots.getD index default)

/-- `MetaRegion::alloc` (meta_region.rs lines 94-126), sequential
semantics: pop the free list if non-empty (the CAS succeeds without
interference), otherwise bump `next_id` with `fetch_add`, undoing with
`fetch_sub` and reporting "full" when the old value reached capacity.
Returns the result together with the post-call region state. -/
def MetaRegion.alloc (m : MetaRegion) : Except Error Nat × MetaRegion :=
  if m.header.free_head = EMPTY then
    if m.header.next_id ≥ m.header.capacity then
      -- `fetch_add(1)` returned `next_id ≥ capacity`: the compensating
      -- `fetch_sub(1)` is composed with it below (both mod 2^32).
      (.error (.SharedMemory "metadata region full"),
       { m with header := { m.header with
            next_id := (U32DEC + (m.header.next_id + 1) % U32MOD) % U32MOD } })
    else
      (.ok m.header.next_id,
       { m with header := { m.header with
            next_id := (m.header.next_id + 1) % U32MOD,
            allocated := (m.header.allocated + 1) % U32MOD } })
  else
    match MetaRegion.get m m.header.free_head with
    | .error e => (.error e, m)
    | .ok meta =>
      (.ok m.header.free_head,
       { m with header := { m.header with
            free_head := meta.next_free,
            allocated := (m.header.allocated + 1) % U32MOD } })

/-- `MetaRegion::free(index)` (meta_region.rs lines 129-152), sequential
semantics of the publish loop: store the old head into the slot's
`next_free`, swing `free_head` to `index`, decrement `allocated`. -/
def MetaRegion.free (m : MetaRegion) (index : Nat) : Except Error Unit × MetaRegion :=
  if index ≥ m.header.capacity then (.error (.BufferNotFound index), m)
  else
    (.ok (),
     { header := { m.header with
          free_head := index,
          allocated := (U32DEC + m.header.allocated) % U32MOD },
       slots := m.slots.set index
         { m.slots.getD index default with next_free := m.header.free_head } })

/-- `AccessMode` (storage.rs). -/
inductive AccessMode where
  | ReadOnly
  | ReadWrite
deriving Repr, DecidableEq

/-- `StorageType` in the default (non-`cuda`) build (storage.rs). -/
inductive StorageType where
  | Cpu
deriving Repr, DecidableEq

/-- `StorageType::from_u8` in the default build: only 0 maps to a
variant. -/
def StorageType.fromU8 (v : Nat) : Option StorageType :=
  if v = 0 then some .Cpu else none

/-- A mapped POSIX shared-memory region as the core sees it (shm.rs):
its OS name and byte length. -/
structure SharedMemory where
  name : String
  size : Nat
deriving Repr, DecidableEq

/-- `BufferData` in the default build (buffer.rs). -/
inductive BufferData where
  | Cpu (shm : SharedMemory)
deriving Repr, DecidableEq

/-- Oracle for the OS shared-memory service consumed by the pool:
outcome of `SharedMemory::create(name, size)` and of
`SharedMemory::open(name)` (which reports the mapped length). -/
structure ShmEnv where
  createShm : String → Nat → Except Error Unit
  openShm : String → Except Error Nat

/-- `BufferGuard` (guard.rs): the `ref_count` field models the raw
pointer into the metadata region as the index of the slot it points to
(`none` models a null pointer). -/
structure BufferGuard where
  data : Option BufferData
  meta_index : Nat
  mode : AccessMode
  ref_count : Option Nat
  should_release : Bool
deriving Repr, DecidableEq

/-- `BufferGuard::forget` (guard.rs lines 164-167): disarm the release
and drop the backing data. -/
def BufferGuard.forget (g : BufferGuard) : BufferGuard :=
  { g with should_release := false, data := none }

/-- `BufferGuard::release` (guard.rs lines 170-175): decrement the
pointed-to `ref_count` unless the pointer is null. -/
def guardRelease (m : MetaRegion) (g : BufferGuard) : MetaRegion :=
  match g.ref_count with
  | none => m
  | some i => setSlot m i (fun mt => { mt with ref_count := toI32 (mt.ref_count - 1) })

/-- `Drop for BufferGuard` (guard.rs lines 178-184): release only when
`should_release` is set and the data is still owned. -/
def guardDrop (m : MetaRegion) (g : BufferGuard) : MetaRegion :=
  if g.should_release && g.data.isSome then guardRelease m g else m

/-- Buffer data region name `"<pool>_buf_<index>"` (pool.rs lines
126-128). -/
def bufferShmName (pool : String) (meta_index : Nat) : String :=
  pool ++ "_buf_" ++ toString meta_index

/-- `BufferPool::acquire_cpu` (pool.rs lines 149-176): allocate a slot,
create the data region, initialise the record, hand out a read-write
guard with `ref_count = 1`. -/
def BufferPool.acquire_cpu (env : ShmEnv) (name : String) (m : MetaRegion) (size : Nat) :
    Except Error BufferGuard × MetaRegion :=
  match MetaRegion.alloc m with
  | (.error e, m1) => (.error e, m1)
  | (.ok idx, m1) =>
    match env.createShm (bufferShmName name idx) size with
    | .error e => (.error e, m1)
    | .ok _ =>
      match MetaRegion.get m1 idx with
      | .error e => (.error e, m1)
      | .ok _ =>
        (.ok { data := some (.Cpu { name := bufferShmName name idx, size := size }),
               meta_index := idx, mode := .ReadWrite, ref_count := some idx,
               should_release := true },
         setSlot m1 idx (fun mt =>
           { mt with id := idx, ref_count := 1, storage_type := 0, device_id := 0,
                     size := size % U64MOD }))

/-- `BufferPool::get_with_mode` (pool.rs lines 188-225): bounds-checked
record lookup, unconditional `ref_count` increment, then storage-type
dispatch and data-region open; errors after the increment leave it in
place. -/
def BufferPool.get_with_mode (env : ShmEnv) (name : String) (m : MetaRegion)
    (meta_index : Nat) (mode : AccessMode) : Except Error BufferGuard × MetaRegion :=
  match MetaRegion.get m meta_index with
  | .error e => (.error e, m)
  | .ok meta =>
    match StorageType.fromU8 meta.storage_type with
    | none =>
      (.error (.SharedMemory "invalid storage type"),
       setSlot m meta_index (fun mt => { mt with ref_count := toI32 (mt.ref_count + 1) }))
    | some .Cpu =>
      match env.openShm (bufferShmName name meta_index) with
      | .error e =>
        (.error e,
         setSlot m meta_index (fun mt => { mt with ref_count := toI32 (mt.ref_count + 1) }))
      | .ok sz =>
        (.ok { data := some (.Cpu { name := bufferShmName name meta_index, size := sz }),
               meta_index := meta_index, mode := mode, ref_count := some meta_index,
               should_release := true },
         setSlot m meta_index (fun mt => { mt with ref_count := toI32 (mt.ref_count + 1) }))

/-- `BufferPool::get` (pool.rs lines 179-181). -/
def BufferPool.getBuffer (env : ShmEnv) (name : String) (m : MetaRegion) (meta_index : Nat) :
    Except Error BufferGuard × MetaRegion :=
  BufferPool.get_with_mode env name m meta_index .ReadOnly

/-- `BufferPool::get_mut` (pool.rs lines 184-186). -/
def BufferPool.get_mut (env : ShmEnv) (name : String) (m : MetaRegion) (meta_index : Nat) :
    Except Error BufferGuard × MetaRegion :=
  BufferPool.get_with_mode env name m meta_index .ReadWrite

/-- `BufferPool::set_ref_count` (pool.rs lines 228-232). -/
def BufferPool.set_ref_count (m : MetaRegion) (meta_index : Nat) (count : Int) :
    Except Error Unit × MetaRegion :=
  match MetaRegion.get m meta_index with
  | .error e => (.error e, m)
  | .ok _ => (.ok (), setSlot m meta_index (fun mt => { mt with ref_count := toI32 count }))

/-- `BufferPool::add_ref` (pool.rs lines 235-238): `fetch_add(1) + 1`. -/
def BufferPool.add_ref (m : MetaRegion) (meta_index : Nat) : Except Error Int × MetaRegion :=
  match MetaRegion.get m meta_index with
  | .error e => (.error e, m)
  | .ok meta =>
    (.ok (toI32 (meta.ref_count + 1)),
     setSlot m meta_index (fun mt => { mt with ref_count := toI32 (mt.ref_count + 1) }))

/-- `BufferPool::release` (pool.rs lines 241-244): `fetch_sub(1) - 1`. -/
def BufferPool.release (m : MetaRegion) (meta_index : Nat) : Except Error Int × MetaRegion :=
  match MetaRegion.get m meta_index with
  | .error e => (.error e, m)
  | .ok meta =>
    (.ok (toI32 (meta.ref_count - 1)),
     setSlot m meta_index (fun mt => { mt with ref_count := toI32 (mt.ref_count - 1) }))

/-- `BufferPool::ref_count` (pool.rs lines 247-250). -/
def BufferPool.ref_count (m : MetaRegion) (meta_index : Nat) : Except Error Int :=
  match MetaRegion.get m meta_index with
  | .error e => .error e
  | .ok meta => .ok meta.ref_count

/-- `BufferPool::release_buffer` (pool.rs lines 253-257). -/
def BufferPool.release_buffer (m : MetaRegion) (meta_index : Nat) :
    Except Error Unit × MetaRegion :=
  MetaRegion.free m meta_index

/-- `BufferPool::try_release` (pool.rs lines 260-270). -/
def BufferPool.try_release (m : MetaRegion) (meta_index : Nat) :
    Except Error Bool × MetaRegion :=
  match MetaRegion.get m meta_index with
  | .error e => (.error e, m)
  | .ok meta =>
    if meta.ref_count ≤ 0 then
      match BufferPool.release_buffer m meta_index with
      | (.error e, m1) => (.error e, m1)
      | (.ok _, m1) => (.ok true, m1)
    else (.ok false, m)

/-- The retry loop of `BufferPool::acquire_cpu_blocking` (pool.rs lines
131-146).  `attempt t` is the outcome of the `acquire_cpu` attempt made
`t` milliseconds after the start (the environment may evolve while the
thread sleeps); `timeout` is in milliseconds and each sleep lasts 1 ms. -/
def acquireCpuBlockingAux (attempt : Nat → Except Error BufferGuard) (timeout t : Nat) :
    Except Error BufferGuard :=
  match attempt t with
  | .ok b => .ok b
  | .error e =>
    if e.isFull then
      if timeout ≤ t then .error .Timeout
      else acquireCpuBlockingAux attempt timeout (t + 1)
    else .error e
termination_by timeout - t

/-- `BufferPool::acquire_cpu_blocking`: start the retry loop at elapsed
time 0. -/
def BufferPool.acquire_cpu_blocking (attempt : Nat → Except Error BufferGuard)
    (timeout : Nat) : Except Error BufferGuard :=
  acquireCpuBlockingAux attempt timeout 0

/-- Is this `acquire_cpu` outcome the "full" error that the blocking
loop retries on? -/
def isFullResult (r : Except Error BufferGuard) : Bool :=
  match r with
  | .error e => e.isFull
  | .ok _ => false

/-- `n` successive `alloc` calls starting from `m` (post-state only). -/
def allocIter (m : MetaRegion) : Nat → MetaRegion
  | 0 => m
  | n + 1 => (MetaRegion.alloc (allocIter m n)).2

/-- A well-formed free list hanging off `start` in a slot array: a
`EMPTY`-terminated chain of in-bounds slot indices following the
`next_free` links. -/
inductive FreeChain (slots : List BufferMeta) (cap : Nat) : Nat → List Nat → Prop where
  | nil : FreeChain slots cap EMPTY []
  | cons (i : Nat) (rest : List Nat) :
      i ≠ EMPTY → i < cap →
      FreeChain slots cap ((slots.getD i default).next_free) rest →
      FreeChain slots cap i (i :: rest)

/-- Well-formedness of a metadata region reachable by the intended
alloc/free discipline: `u32`-sized capacity, bump cursor within
capacity, and a duplicate-free free list of previously-bumped indices. -/
def Wf (m : MetaRegion) : Prop :=
  m.header.capacity ≤ EMPTY ∧
  m.header.next_id ≤ m.header.capacity ∧
  ∃ l, FreeChain m.slots m.header.capacity m.header.free_head l ∧
       l.Nodup ∧ ∀ i ∈ l, i < m.header.next_id

/-! ### Helper lemmas -/

theorem getD_set_self (l : List BufferMeta) (i : Nat) (a : BufferMeta)
    (h : i < l.length) : (l.set i a).getD i default = a := by
  simp [List.getD_eq_getElem?_getD, List.getElem?_set_self, h]

theorem getD_set_ne (l : List BufferMeta) (i j : Nat) (a : BufferMeta)
    (h : i ≠ j) : (l.set i a).getD j default = l.getD j default := by
  simp [List.getD_eq_getElem?_getD, List.getElem?_set_ne h]

theorem setSlot_header (m : MetaRegion) (i : Nat) (f : BufferMeta → BufferMeta) :
    (setSlot m i f).header = m.header := rfl

theorem setSlot_length (m : MetaRegion) (i : Nat) (f : BufferMeta → BufferMeta) :
    (setSlot m i f).slots.length = m.slots.length := by
  simp [setSlot]

theorem getD_setSlot_self (m : MetaRegion) (i : Nat) (f : BufferMeta → BufferMeta)
    (h : i < m.slots.length) :
    (setSlot m i f).slots.getD i default = f (m.slots.getD i default) :=
  getD_set_self _ _ _ h

theorem u32_incr_decr (n : Nat) (h : n < U32MOD) :
    (U32DEC + (n + 1) % U32MOD) % U32MOD = n := by
  unfold U32MOD U32DEC at *
  omega

theorem toI32_eq_self (n : Int) (h1 : -2147483648 ≤ n) (h2 : n < 2147483648) :
    toI32 n = n := by
  unfold toI32
  omega

theorem toI32_incr_decr (n : Int) (h1 : -2147483648 ≤ n) (h2 : n < 2147483648) :
    toI32 (toI32 (n + 1) - 1) = n := by
  unfold toI32
  omega

/-- `alloc` never modifies the slot array (it only touches the header). -/
theorem alloc_slots (m : MetaRegion) : (MetaRegion.alloc m).2.slots = m.slots := by
  by_cases h1 : m.header.free_head = EMPTY
  · by_cases h2 : m.header.next_id ≥ m.header.capacity
    · simp only [MetaRegion.alloc, if_pos h1, if_pos h2]
    · simp only [MetaRegion.alloc, if_pos h1, if_neg h2]
  · cases hg : MetaRegion.get m m.header.free_head with
    | error e => simp only [MetaRegion.alloc, if_neg h1, hg]
    | ok meta => simp only [MetaRegion.alloc, if_neg h1, hg]

/-- `alloc` never modifies the capacity. -/
theorem alloc_capacity (m : MetaRegion) :
    (MetaRegion.alloc m).2.header.capacity = m.header.capacity := by
  by_cases h1 : m.header.free_head = EMPTY
  · by_cases h2 : m.header.next_id ≥ m.header.capacity
    · simp only [MetaRegion.alloc, if_pos h1, if_pos h2]
    · simp only [MetaRegion.alloc, if_pos h1, if_neg h2]
  · cases hg : MetaRegion.get m m.header.free_head with
    | error e => simp only [MetaRegion.alloc, if_neg h1, hg]
    | ok meta => simp only [MetaRegion.alloc, if_neg h1, hg]

/-- A successful `alloc` returns an in-bounds index. -/
theorem alloc_ok_lt (m : MetaRegion) (i : Nat)
    (h : (MetaRegion.alloc m).1 = .ok i) : i < m.header.capacity := by
  by_cases h1 : m.header.free_head = EMPTY
  · by_cases h2 : m.header.next_id ≥ m.header.capacity
    · simp only [MetaRegion.alloc, if_pos h1, if_pos h2] at h
      exact absurd h (by simp)
    · simp only [MetaRegion.alloc, if_pos h1, if_neg h2] at h
      cases h
      omega
  · cases hg : MetaRegion.get m m.header.free_head with
    | error e =>
      simp only [MetaRegion.alloc, if_neg h1, hg] at h
      exact absurd h (by simp)
    | ok meta =>
      simp only [MetaRegion.alloc, if_neg h1, hg] at h
      cases h
      unfold MetaRegion.get at hg
      by_cases hb : m.header.free_head ≥ m.header.capacity
      · rw [if_pos hb] at hg
        exact absurd hg (by simp)
      · omega

/-- Characterisation of the "full" branch of `alloc`. -/
theorem alloc_full_eq (m : MetaRegion) (hfh : m.header.free_head = EMPTY)
    (hge : m.header.next_id ≥ m.header.capacity) :
    MetaRegion.alloc m =
      (.error (.SharedMemory "metadata region full"),
       { m with header := { m.header with
            next_id := (U32DEC + (m.header.next_id + 1) % U32MOD) % U32MOD } }) := by
  simp only [MetaRegion.alloc, if_pos hfh, if_pos hge]

/-- Characterisation of the bump branch of `alloc`. -/
theorem alloc_bump_eq (m : MetaRegion) (hfh : m.header.free_head = EMPTY)
    (hlt : m.header.next_id < m.header.capacity) :
    MetaRegion.alloc m =
      (.ok m.header.next_id,
       { m with header := { m.header with
            next_id := (m.header.next_id + 1) % U32MOD,
            allocated := (m.header.allocated + 1) % U32MOD } }) := by
  simp only [MetaRegion.alloc, if_pos hfh, if_neg (not_le.mpr hlt)]

/-- Characterisation of the free-list pop branch of `alloc`. -/
theorem alloc_pop_eq (m : MetaRegion) (hne : m.header.free_head ≠ EMPTY)
    (hlt : m.header.free_head < m.header.capacity) :
    MetaRegion.alloc m =
      (.ok m.header.free_head,
       { m with header := { m.header with
            free_head := (m.slots.getD m.header.free_head default).next_free,
            allocated := (m.header.allocated + 1) % U32MOD } }) := by
  have hget : MetaRegion.get m m.header.free_head =
      .ok (m.slots.getD m.header.free_head default) := by
    simp only [MetaRegion.get, if_neg (not_le.mpr hlt)]
  simp only [MetaRegion.alloc, if_neg hne, hget]

/-- Characterisation of a successful `free`. -/
theorem free_ok_eq (m : MetaRegion) (i : Nat) (hi : i < m.header.capacity) :
    MetaRegion.free m i =
      (.ok (),
       { header := { m.header with
            free_head := i,
            allocated := (U32DEC + m.header.allocated) % U32MOD },
         slots := m.slots.set i
           { m.slots.getD i default with next_free := m.header.free_head } }) := by
  simp only [MetaRegion.free, if_neg (not_le.mpr hi)]

/-- Inversion: a chain starting at `EMPTY` is empty. -/
theorem freeChain_empty_start (slots : List BufferMeta) (cap : Nat) (l : List Nat)
    (h : FreeChain slots cap EMPTY l) : l = [] := by
  cases h with
  | nil => rfl
  | cons i rest hne _ _ => exact absurd rfl hne

/-- Inversion: a chain carrying the empty list starts at `EMPTY`. -/
theorem freeChain_nil_list (slots : List BufferMeta) (cap : Nat) (s : Nat)
    (h : FreeChain slots cap s []) : s = EMPTY := by
  cases h
  rfl

/-- Inversion of a non-empty chain. -/
theorem freeChain_cons_inv (slots : List BufferMeta) (cap : Nat) (s a : Nat)
    (t : List Nat) (h : FreeChain slots cap s (a :: t)) :
    s = a ∧ a ≠ EMPTY ∧ a < cap ∧
      FreeChain slots cap ((slots.getD a default).next_free) t := by
  cases h with
  | cons i rest hne hlt hrest => exact ⟨rfl, hne, hlt, hrest⟩

/-! ### Claim theorems -/

/-- C2: on a region whose free list is empty and whose `next_id` equals
`capacity`, `MetaRegion::alloc` — and therefore `acquire_cpu`
(`acquire_host`) built on it — fails with `SharedMemory("metadata region
full")`, and the header's `next_id` after the failing call equals its
value before the call. -/
theorem c2_full_alloc_preserves_next_id (env : ShmEnv) (name : String) (size : Nat)
    (m : MetaRegion)
    (hfree : m.header.free_head = EMPTY)
    (hnext : m.header.next_id = m.header.capacity)
    (hlt : m.header.next_id < U32MOD) :
    (MetaRegion.alloc m).1 = .error (.SharedMemory "metadata region full") ∧
    (MetaRegion.alloc m).2.header.next_id = m.header.next_id ∧
    (BufferPool.acquire_cpu env name m size).1 =
      .error (.SharedMemory "metadata region full") ∧
    (BufferPool.acquire_cpu env name m size).2.header.next_id = m.header.next_id := by
  have hge : m.header.next_id ≥ m.header.capacity := le_of_eq hnext.symm
  have halloc := alloc_full_eq m hfree hge
  refine ⟨?_, ?_, ?_, ?_⟩
  · rw [halloc]
  · rw [halloc]
    exact u32_incr_decr _ hlt
  · simp only [BufferPool.acquire_cpu, halloc]
  · simp only [BufferPool.acquire_cpu, halloc]
    exact u32_incr_decr _ hlt

/-- Witness for C2 at a concrete full region (capacity 0, fresh). -/
theorem c2_witness :
    (MetaRegion.alloc (MetaRegion.create 0)).1 =
      .error (.SharedMemory "metadata region full") ∧
    (MetaRegion.alloc (MetaRegion.create 0)).2.header.next_id =
      (MetaRegion.create 0).header.next_id := by
  have h := c2_full_alloc_preserves_next_id
    ⟨fun _ _ => .ok (), fun _ => .ok 0⟩ "/p" 8 (MetaRegion.create 0)
    rfl rfl (by decide)
  exact ⟨h.1, h.2.1⟩

/-- C3: after a successful `free(i)`, the next `alloc` pops `i` from the
free-list head (LIFO recycling) instead of bumping: it returns `i` and
leaves the bump cursor `next_id` untouched. -/
theorem c3_free_then_alloc_lifo (m : MetaRegion) (i : Nat)
    (hi : i < m.header.capacity) (hcap : m.header.capacity ≤ EMPTY) :
    (MetaRegion.free m i).1 = .ok () ∧
    (MetaRegion.alloc (MetaRegion.free m i).2).1 = .ok i ∧
    (MetaRegion.alloc (MetaRegion.free m i).2).2.header.next_id = m.header.next_id := by
  have hne : i ≠ EMPTY := Nat.ne_of_lt (lt_of_lt_of_le hi hcap)
  have hfree := free_ok_eq m i hi
  have hpop := alloc_pop_eq (MetaRegion.free m i).2
    (by rw [hfree]; exact hne) (by rw [hfree]; exact hi)
  refine ⟨?_, ?_, ?_⟩
  · rw [hfree]
  · rw [hpop, hfree]
  · rw [hpop, hfree]

/-- Witness for C3 on a fresh capacity-2 region and slot 0. -/
theorem c3_witness :
    (MetaRegion.free (MetaRegion.create 2) 0).1 = .ok () ∧
    (MetaRegion.alloc (MetaRegion.free (MetaRegion.create 2) 0).2).1 = .ok 0 :=
  have h := c3_free_then_alloc_lifo (MetaRegion.create 2) 0 (by decide) (by decide)
  ⟨h.1, h.2.1⟩

/-- C6: `MetaRegion::open` fails with a `SharedMemory` error exactly when
the stored header's magic differs from 0x584D454D or its version differs
from 2, and succeeds (returning the region as stored) exactly when both
match. -/
theorem c6_open_validates_header (h : MetaRegionHeader) (slots : List BufferMeta) :
    ((∃ msg, MetaRegion.openRegion h slots = .error (.SharedMemory msg)) ↔
      (h.magic ≠ MAGIC ∨ h.version ≠ VERSION)) ∧
    (MetaRegion.openRegion h slots = .ok { header := h, slots := slots } ↔
      (h.magic = MAGIC ∧ h.version = VERSION)) := by
  by_cases h1 : h.magic = MAGIC <;> by_cases h2 : h.version = VERSION <;>
    simp [MetaRegion.openRegion, h1, h2]

/-- Witness for C6: a fresh version-2 header opens successfully, and a
header with version 1 is rejected with a `SharedMemory` error. -/
theorem c6_witness :
    MetaRegion.openRegion (MetaRegion.create 1).header [] =
      .ok { header := (MetaRegion.create 1).header, slots := [] } ∧
    ∃ msg,
      MetaRegion.openRegion
        { magic := MAGIC, version := 1, capacity := 4, next_id := 0,
          allocated := 0, free_head := EMPTY, waiters := 0 } [] =
        .error (.SharedMemory msg) :=
  ⟨(c6_open_validates_header (MetaRegion.create 1).header []).2.mpr (by decide),
   (c6_open_validates_header
      { magic := MAGIC, version := 1, capacity := 4, next_id := 0,
        allocated := 0, free_head := EMPTY, waiters := 0 } []).1.mpr
     (Or.inr (by decide))⟩

/-- C5: for a valid index, `try_release` frees the slot back to the free
list and returns `true` exactly when the slot's `ref_count` is `≤ 0` at
call time (the freed slot becomes the free-list head and its `next_free`
links to the old head); when `ref_count > 0` it returns `false` and
leaves the region completely unchanged. -/
theorem c5_try_release_iff_rc_nonpositive (m : MetaRegion) (i : Nat)
    (hi : i < m.header.capacity) (hlen : m.header.capacity ≤ m.slots.length) :
    (refCountAt m i ≤ 0 →
      BufferPool.try_release m i = (.ok true, (MetaRegion.free m i).2) ∧
      (MetaRegion.free m i).2.header.free_head = i ∧
      nextFreeAt (MetaRegion.free m i).2 i = m.header.free_head) ∧
    (0 < refCountAt m i →
      BufferPool.try_release m i = (.ok false, m)) := by
  have hilen : i < m.slots.length := lt_of_lt_of_le hi hlen
  have hget : MetaRegion.get m i = .ok (m.slots.getD i default) := by
    simp only [MetaRegion.get, if_neg (not_le.mpr hi)]
  have hfree := free_ok_eq m i hi
  constructor
  · intro hrc
    have hrc' : (m.slots.getD i default).ref_count ≤ 0 := hrc
    refine ⟨?_, ?_, ?_⟩
    · simp only [BufferPool.try_release, hget, if_pos hrc',
        BufferPool.release_buffer, hfree]
    · rw [hfree]
    · rw [hfree]
      simp only [nextFreeAt]
      rw [getD_set_self _ _ _ hilen]
  · intro hrc
    have hrc' : ¬ (m.slots.getD i default).ref_count ≤ 0 := not_le.mpr hrc
    simp only [BufferPool.try_release, hget, if_neg hrc']

/-- Witness for C5 on a fresh capacity-2 region (slot 0 has
`ref_count = 0`). -/
theorem c5_witness :
    BufferPool.try_release (MetaRegion.create 2) 0 =
      (.ok true, (MetaRegion.free (MetaRegion.create 2) 0).2) ∧
    (MetaRegion.free (MetaRegion.create 2) 0).2.header.free_head = 0 :=
  have h := (c5_try_release_iff_rc_nonpositive (MetaRegion.create 2) 0
    (by decide) (by decide)).1 (by decide)
  ⟨h.1, h.2.1⟩

/-- C8: for a valid index, `add_ref` followed by `release` restores the
slot's `ref_count` to its prior value; `add_ref` returns the incremented
count and `release` returns the decremented count. -/
theorem c8_add_ref_release_roundtrip (m : MetaRegion) (i : Nat)
    (hi : i < m.header.capacity) (hlen : m.header.capacity ≤ m.slots.length)
    (hlo : -2147483648 ≤ refCountAt m i) (hhi : refCountAt m i < 2147483647) :
    (BufferPool.add_ref m i).1 = .ok (refCountAt m i + 1) ∧
    (BufferPool.release (BufferPool.add_ref m i).2 i).1 = .ok (refCountAt m i) ∧
    refCountAt (BufferPool.release (BufferPool.add_ref m i).2 i).2 i =
      refCountAt m i := by
  have hilen : i < m.slots.length := lt_of_lt_of_le hi hlen
  have hget : MetaRegion.get m i = .ok (m.slots.getD i default) := by
    simp only [MetaRegion.get, if_neg (not_le.mpr hi)]
  have hv1 : toI32 ((m.slots.getD i default).ref_count + 1) = refCountAt m i + 1 :=
    toI32_eq_self _ (by simp only [refCountAt] at hlo; omega)
      (by simp only [refCountAt] at hhi; omega)
  have hadd : BufferPool.add_ref m i =
      (.ok (toI32 ((m.slots.getD i default).ref_count + 1)),
       setSlot m i (fun mt => { mt with ref_count := toI32 (mt.ref_count + 1) })) := by
    simp only [BufferPool.add_ref, hget]
  have hm1len : (BufferPool.add_ref m i).2.slots.length = m.slots.length := by
    rw [hadd]
    exact setSlot_length m i _
  have hm1slot : (BufferPool.add_ref m i).2.slots.getD i default =
      { m.slots.getD i default with ref_count := toI32 ((m.slots.getD i default).ref_count + 1) } := by
    rw [hadd]
    exact getD_setSlot_self m i _ hilen
  have hget1 : MetaRegion.get (BufferPool.add_ref m i).2 i =
      .ok ((BufferPool.add_ref m i).2.slots.getD i default) := by
    have hcap1 : (BufferPool.add_ref m i).2.header.capacity = m.header.capacity := by
      rw [hadd]
      rfl
    simp only [MetaRegion.get, hcap1, if_neg (not_le.mpr hi)]
  have hrel : BufferPool.release (BufferPool.add_ref m i).2 i =
      (.ok (toI32 (((BufferPool.add_ref m i).2.slots.getD i default).ref_count - 1)),
       setSlot (BufferPool.add_ref m i).2 i
         (fun mt => { mt with ref_count := toI32 (mt.ref_count - 1) })) := by
    simp only [BufferPool.release, hget1]
  have hback : toI32 (((BufferPool.add_ref m i).2.slots.getD i default).ref_count - 1) =
      refCountAt m i := by
    rw [hm1slot]
    exact toI32_incr_decr _ (by simp only [refCountAt] at hlo; omega)
      (by simp only [refCountAt] at hhi; omega)
  refine ⟨?_, ?_, ?_⟩
  · rw [hadd]
    simp only [hv1]
  · rw [hrel, hback]
  · rw [hrel]
    simp only [refCountAt]
    rw [getD_setSlot_self _ _ _ (by rw [hm1len]; exact hilen)]
    exact hback

/-- Witness for C8 on a fresh capacity-2 region and slot 0. -/
theorem c8_witness :
    (BufferPool.add_ref (MetaRegion.create 2) 0).1 =
      .ok (refCountAt (MetaRegion.create 2) 0 + 1) ∧
    refCountAt
      (BufferPool.release (BufferPool.add_ref (MetaRegion.create 2) 0).2 0).2 0 =
      refCountAt (MetaRegion.create 2) 0 :=
  have h := c8_add_ref_release_roundtrip (MetaRegion.create 2) 0
    (by decide) (by decide) (by decide) (by decide)
  ⟨h.1, h.2.2⟩

/-- C9: for any index below capacity, `get_with_mode` (hence `get` and
`get_mut`) increments the slot's `ref_count` by one whatever state the
slot is in, and the increment survives a failure to open the backing
data region: the call returns that error while `ref_count` stays one
higher. -/
theorem c9_get_increments_always (env : ShmEnv) (name : String) (m : MetaRegion)
    (i : Nat) (mode : AccessMode)
    (hi : i < m.header.capacity) (hlen : m.header.capacity ≤ m.slots.length) :
    refCountAt (BufferPool.get_with_mode env name m i mode).2 i =
      toI32 (refCountAt m i + 1) ∧
    (-2147483648 ≤ refCountAt m i → refCountAt m i < 2147483647 →
      refCountAt (BufferPool.get_with_mode env name m i mode).2 i =
        refCountAt m i + 1) ∧
    (∀ e, (m.slots.getD i default).storage_type = 0 →
      env.openShm (bufferShmName name i) = .error e →
      (BufferPool.get_with_mode env name m i mode).1 = .error e) := by
  have hilen : i < m.slots.length := lt_of_lt_of_le hi hlen
  have hget : MetaRegion.get m i = .ok (m.slots.getD i default) := by
    simp only [MetaRegion.get, if_neg (not_le.mpr hi)]
  have h2 : (BufferPool.get_with_mode env name m i mode).2 =
      setSlot m i (fun mt => { mt with ref_count := toI32 (mt.ref_count + 1) }) := by
    simp only [BufferPool.get_with_mode, hget]
    cases hf : StorageType.fromU8 ((m.slots.getD i default).storage_type) with
    | none => rfl
    | some c =>
      cases c
      cases ho : env.openShm (bufferShmName name i) with
      | error e => rfl
      | ok sz => rfl
  have hmain : refCountAt (BufferPool.get_with_mode env name m i mode).2 i =
      toI32 (refCountAt m i + 1) := by
    rw [h2]
    simp only [refCountAt]
    rw [getD_setSlot_self m i _ hilen]
  refine ⟨hmain, ?_, ?_⟩
  · intro hlo hhi
    rw [hmain]
    exact toI32_eq_self _ (by omega) (by omega)
  · intro e hst ho
    have hf : StorageType.fromU8 ((m.slots.getD i default).storage_type) = some .Cpu := by
      rw [hst]
      rfl
    simp only [BufferPool.get_with_mode, hget, hf, ho]

/-- Witness for C9: opening the backing region fails but the increment
stays. -/
theorem c9_witness :
    refCountAt (BufferPool.get_with_mode
      ⟨fun _ _ => .ok (), fun _ => .error (.SharedMemory "boom")⟩ "/p"
      (MetaRegion.create 2) 0 .ReadOnly).2 0 =
      refCountAt (MetaRegion.create 2) 0 + 1 ∧
    (BufferPool.get_with_mode
      ⟨fun _ _ => .ok (), fun _ => .error (.SharedMemory "boom")⟩ "/p"
      (MetaRegion.create 2) 0 .ReadOnly).1 = .error (.SharedMemory "boom") :=
  have h := c9_get_increments_always
    ⟨fun _ _ => .ok (), fun _ => .error (.SharedMemory "boom")⟩ "/p"
    (MetaRegion.create 2) 0 .ReadOnly (by decide) (by decide)
  ⟨h.2.1 (by decide) (by decide), h.2.2 (.SharedMemory "boom") (by decide) rfl⟩

/-- If every attempt up to the deadline reports the "full" error, the
retry loop ends in `Timeout`. -/
theorem acquireAux_all_full (attempt : Nat → Except Error BufferGuard) (timeout : Nat)
    (hall : ∀ u, u ≤ timeout → isFullResult (attempt u) = true) :
    ∀ n t, timeout - t ≤ n → t ≤ timeout →
      acquireCpuBlockingAux attempt timeout t = .error .Timeout := by
  intro n
  induction n with
  | zero =>
    intro t hn ht
    have hf := hall t ht
    have hend : timeout ≤ t := by omega
    cases hA : attempt t with
    | ok b =>
      rw [hA] at hf
      simp only [isFullResult] at hf
      exact absurd hf (by  decide)
    | error e =>
      rw [hA] at hf
      simp only [isFullResult] at hf
      rw [acquireCpuBlockingAux, hA]
      dsimp only
      rw [if_pos hf, if_pos hend]
  | succ k ih =>
    intro t hn ht
    have hf := hall t ht
    cases hA : attempt t with
    | ok b =>
      rw [hA] at hf
      simp only [isFullResult] at hf
      exact absurd hf (by  decide)
    | error e =>
      rw [hA] at hf
      simp only [isFullResult] at hf
      rw [acquireCpuBlockingAux, hA]
      dsimp only
      rw [if_pos hf]
      by_cases hend : timeout ≤ t
      · rw [if_pos hend]
      · rw [if_neg hend]
        exact ih (t + 1) (by omega) (by omega)

/-- The retry loop never surfaces a "full" error: any error it returns
is either `Timeout` or a non-"full" error of an attempt. -/
theorem acquireAux_not_full (attempt : Nat → Except Error BufferGuard) (timeout : Nat) :
    ∀ n t e, timeout - t ≤ n →
      acquireCpuBlockingAux attempt timeout t = .error e → e.isFull = false := by
  intro n
  induction n with
  | zero =>
    intro t e hn h
    rw [acquireCpuBlockingAux] at h
    cases hA : attempt t with
    | ok b =>
      rw [hA] at h
      dsimp only at h
      exact absurd h (by simp)
    | error e2 =>
      rw [hA] at h
      dsimp only at h
      by_cases hf : e2.isFull = true
      · rw [if_pos hf] at h
        have hend : timeout ≤ t := by omega
        rw [if_pos hend] at h
        injection h with h2
        rw [← h2]
        rfl
      · rw [if_neg hf] at h
        injection h with h2
        rw [← h2]
        simpa using hf
  | succ k ih =>
    intro t e hn h
    rw [acquireCpuBlockingAux] at h
    cases hA : attempt t with
    | ok b =>
      rw [hA] at h
      dsimp only at h
      exact absurd h (by simp)
    | error e2 =>
      rw [hA] at h
      dsimp only at h
      by_cases hf : e2.isFull = true
      · rw [if_pos hf] at h
        by_cases hend : timeout ≤ t
        · rw [if_pos hend] at h
          injection h with h2
          rw [← h2]
          rfl
        · rw [if_neg hend] at h
          exact ih (t + 1) e (by omega) h
      · rw [if_neg hf] at h
        injection h with h2
        rw [← h2]
        simpa using hf

/-- C1: `acquire_cpu_blocking` (`acquire_host_blocking`) retries only on
`SharedMemory` errors whose message contains "full": a first attempt
failing with any other error is returned immediately; if every attempt
up to the deadline reports "full" the call returns `Timeout`; and no
"full" error is ever surfaced to the caller. -/
theorem c1_blocking_retries_only_full (attempt : Nat → Except Error BufferGuard)
    (timeout : Nat) :
    (∀ e, attempt 0 = .error e → e.isFull = false →
      BufferPool.acquire_cpu_blocking attempt timeout = .error e) ∧
    ((∀ u, u ≤ timeout → isFullResult (attempt u) = true) →
      BufferPool.acquire_cpu_blocking attempt timeout = .error .Timeout) ∧
    (∀ e, BufferPool.acquire_cpu_blocking attempt timeout = .error e →
      e.isFull = false) := by
  refine ⟨?_, ?_, ?_⟩
  · intro e hA hf
    unfold BufferPool.acquire_cpu_blocking
    rw [acquireCpuBlockingAux, hA]
    dsimp only
    rw [if_neg (by simp [hf])]
  · intro hall
    exact acquireAux_all_full attempt timeout hall timeout 0 (by omega) (by omega)
  · intro e h
    exact acquireAux_not_full attempt timeout timeout 0 e (by omega) h

/-- Witness for C1: with a permanently full pool the call times out;
with a non-"full" error it returns that error immediately. -/
theorem c1_witness :
    BufferPool.acquire_cpu_blocking
      (fun _ => .error (.SharedMemory "metadata region full")) 2 = .error .Timeout ∧
    BufferPool.acquire_cpu_blocking (fun _ => .error .ReadOnly) 5 =
      .error .ReadOnly :=
  ⟨(c1_blocking_retries_only_full
      (fun _ => .error (.SharedMemory "metadata region full")) 2).2.1
      (fun u _ => by decide),
   (c1_blocking_retries_only_full (fun _ => .error .ReadOnly) 5).1 .ReadOnly rfl
      (by decide)⟩

/-- One `alloc` step in the corrupted configuration where the free-list
head is a slot whose `next_free` points to itself: it succeeds with that
slot, preserves the configuration, and bumps `allocated`. -/
theorem selfloop_alloc_step (m : MetaRegion) (i : Nat)
    (hi : i < m.header.capacity) (hcap : m.header.capacity ≤ EMPTY)
    (hhead : m.header.free_head = i) (hself : nextFreeAt m i = i) :
    (MetaRegion.alloc m).1 = .ok i ∧
    (MetaRegion.alloc m).2.header.free_head = i ∧
    nextFreeAt (MetaRegion.alloc m).2 i = i ∧
    (MetaRegion.alloc m).2.header.capacity = m.header.capacity ∧
    (MetaRegion.alloc m).2.header.allocated = (m.header.allocated + 1) % U32MOD := by
  have hne : m.header.free_head ≠ EMPTY := by
    rw [hhead]
    exact Nat.ne_of_lt (lt_of_lt_of_le hi hcap)
  have hlt : m.header.free_head < m.header.capacity := by
    rw [hhead]
    exact hi
  have hpop := alloc_pop_eq m hne hlt
  refine ⟨?_, ?_, ?_, ?_, ?_⟩
  · rw [hpop, hhead]
  · rw [hpop]
    show (m.slots.getD m.header.free_head default).next_free = i
    rw [hhead]
    exact hself
  · rw [hpop]
    exact hself
  · rw [hpop]
  · rw [hpop]

/-- C10: `free` performs no double-free check: freeing `i` twice with no
intervening `alloc` makes slot `i` its own free-list successor, after
which (sequentially) every subsequent `alloc` returns `i`, never reports
the full condition, and bumps the `allocated` counter each time. -/
theorem c10_double_free_self_loop (m : MetaRegion) (i : Nat)
    (hi : i < m.header.capacity) (hcap : m.header.capacity ≤ EMPTY)
    (hlen : m.header.capacity ≤ m.slots.length) :
    (MetaRegion.free m i).1 = .ok () ∧
    (MetaRegion.free (MetaRegion.free m i).2 i).1 = .ok () ∧
    nextFreeAt (MetaRegion.free (MetaRegion.free m i).2 i).2 i = i ∧
    (∀ n,
      (MetaRegion.alloc
        (allocIter (MetaRegion.free (MetaRegion.free m i).2 i).2 n)).1 = .ok i ∧
      (allocIter (MetaRegion.free (MetaRegion.free m i).2 i).2 (n + 1)).header.allocated =
        ((allocIter (MetaRegion.free (MetaRegion.free m i).2 i).2 n).header.allocated
          + 1) % U32MOD) := by
  have hilen : i < m.slots.length := lt_of_lt_of_le hi hlen
  have hfree1 := free_ok_eq m i hi
  have hi1 : i < (MetaRegion.free m i).2.header.capacity := by
    rw [hfree1]
    exact hi
  have hfree2 := free_ok_eq (MetaRegion.free m i).2 i hi1
  have hilen1 : i < (MetaRegion.free m i).2.slots.length := by
    rw [hfree1]
    simpa using hilen
  -- the doubly-freed state: head = i and slot i links to itself
  have hhead2 : (MetaRegion.free (MetaRegion.free m i).2 i).2.header.free_head = i := by
    rw [hfree2]
  have hself2 :
      nextFreeAt (MetaRegion.free (MetaRegion.free m i).2 i).2 i = i := by
    rw [hfree2]
    simp only [nextFreeAt]
    rw [getD_set_self _ _ _ hilen1]
    rw [hfree1]
  have hcap2 :
      (MetaRegion.free (MetaRegion.free m i).2 i).2.header.capacity =
        m.header.capacity := by
    rw [hfree2, hfree1]
  -- the configuration is preserved by every alloc
  have hconf : ∀ n,
      (allocIter (MetaRegion.free (MetaRegion.free m i).2 i).2 n).header.free_head = i ∧
      nextFreeAt (allocIter (MetaRegion.free (MetaRegion.free m i).2 i).2 n) i = i ∧
      (allocIter (MetaRegion.free (MetaRegion.free m i).2 i).2 n).header.capacity =
        m.header.capacity := by
    intro n
    induction n with
    | zero => exact ⟨hhead2, hself2, hcap2⟩
    | succ k ih =>
      obtain ⟨h1, h2, h3⟩ := ih
      have hstep := selfloop_alloc_step _ i (h3 ▸ hi) (h3 ▸ hcap) h1 h2
      exact ⟨hstep.2.1, hstep.2.2.1, h3 ▸ hstep.2.2.2.1⟩
  refine ⟨?_, ?_, hself2, ?_⟩
  · rw [hfree1]
  · rw [hfree2]
  · intro n
    obtain ⟨h1, h2, h3⟩ := hconf n
    have hstep := selfloop_alloc_step _ i (h3 ▸ hi) (h3 ▸ hcap) h1 h2
    exact ⟨hstep.1, hstep.2.2.2.2⟩

/-- Witness for C10 at a fresh capacity-2 region, slot 0, first alloc. -/
theorem c10_witness :
    nextFreeAt
      (MetaRegion.free (MetaRegion.free (MetaRegion.create 2) 0).2 0).2 0 = 0 ∧
    (MetaRegion.alloc
      (allocIter (MetaRegion.free (MetaRegion.free (MetaRegion.create 2) 0).2 0).2 1)).1 =
      .ok 0 :=
  have h := c10_double_free_self_loop (MetaRegion.create 2) 0
    (by decide) (by decide) (by decide)
  ⟨h.2.2.1, (h.2.2.2 1).1⟩

/-- C7: a successful `alloc` always returns an index below capacity
(both on the bump path, which checks `id >= capacity`, and on the pop
path, whose `get` bounds-checks the head), and on a well-formed region
two consecutive successful `alloc` calls with no intervening `free`
return distinct indices. -/
theorem c7_alloc_in_bounds_and_distinct (m : MetaRegion) :
    (∀ i, (MetaRegion.alloc m).1 = .ok i → i < m.header.capacity) ∧
    (Wf m → ∀ i j, (MetaRegion.alloc m).1 = .ok i →
      (MetaRegion.alloc (MetaRegion.alloc m).2).1 = .ok j → i ≠ j) := by
  constructor
  · intro i h
    exact alloc_ok_lt m i h
  · rintro ⟨hcapE, hnid, l, hchain, hnodup, hlow⟩ i j h1 h2
    have hcap1 := alloc_capacity m
    by_cases hfh : m.header.free_head = EMPTY
    · -- both allocations bump
      rw [hfh] at hchain
      have hl : l = [] := freeChain_empty_start _ _ _ hchain
      subst hl
      by_cases hge : m.header.next_id ≥ m.header.capacity
      · rw [alloc_full_eq m hfh hge] at h1
        exact absurd h1 (by simp)
      · have hb1 := alloc_bump_eq m hfh (not_le.mp hge)
        rw [hb1] at h1
        injection h1 with h1'
        have hmod : (m.header.next_id + 1) % U32MOD = m.header.next_id + 1 := by
          have h1c : m.header.next_id < m.header.capacity := not_le.mp hge
          unfold U32MOD
          unfold EMPTY at hcapE
          omega
        have hfh1 : (MetaRegion.alloc m).2.header.free_head = EMPTY := by
          rw [hb1]
          exact hfh
        have hni1 : (MetaRegion.alloc m).2.header.next_id = m.header.next_id + 1 := by
          rw [hb1]
          exact hmod
        by_cases hge2 : (MetaRegion.alloc m).2.header.next_id ≥
            (MetaRegion.alloc m).2.header.capacity
        · rw [alloc_full_eq _ hfh1 hge2] at h2
          exact absurd h2 (by simp)
        · rw [alloc_bump_eq _ hfh1 (not_le.mp hge2)] at h2
          injection h2 with h2'
          rw [← h1', ← h2', hni1]
          omega
    · -- first allocation pops the chain head
      cases l with
      | nil => exact absurd (freeChain_nil_list _ _ _ hchain) hfh
      | cons a t =>
        obtain ⟨hsa, haE, hacap, hrest⟩ := freeChain_cons_inv _ _ _ _ _ hchain
        have hp1 := alloc_pop_eq m hfh (hsa ▸ hacap)
        rw [hp1] at h1
        injection h1 with h1'
        have hfh1 : (MetaRegion.alloc m).2.header.free_head =
            (m.slots.getD m.header.free_head default).next_free := by
          rw [hp1]
        have hni1 : (MetaRegion.alloc m).2.header.next_id = m.header.next_id := by
          rw [hp1]
        cases t with
        | nil =>
          -- the popped slot was the whole chain: the second alloc bumps
          have hnf : (m.slots.getD a default).next_free = EMPTY :=
            freeChain_nil_list _ _ _ hrest
          have hfh1' : (MetaRegion.alloc m).2.header.free_head = EMPTY := by
            rw [hfh1, hsa, hnf]
          by_cases hge2 : (MetaRegion.alloc m).2.header.next_id ≥
              (MetaRegion.alloc m).2.header.capacity
          · rw [alloc_full_eq _ hfh1' hge2] at h2
            exact absurd h2 (by simp)
          · rw [alloc_bump_eq _ hfh1' (not_le.mp hge2)] at h2
            injection h2 with h2'
            have hai : a = i := by rw [← hsa, h1']
            have halt : a < m.header.next_id := hlow a (by simp)
            rw [← h2', hni1, ← hai]
            omega
        | cons b t2 =>
          -- the second alloc pops the next chain element, distinct by Nodup
          obtain ⟨hsb, hbE, hbcap, _⟩ := freeChain_cons_inv _ _ _ _ _ hrest
          have hfh1' : (MetaRegion.alloc m).2.header.free_head = b := by
            rw [hfh1, hsa, hsb]
          have hp2 := alloc_pop_eq (MetaRegion.alloc m).2
            (by rw [hfh1']; exact hbE) (by rw [hfh1', hcap1]; exact hbcap)
          rw [hp2] at h2
          injection h2 with h2'
          have hab : a ≠ b := by
            intro he
            subst he
            simp at hnodup
          rw [← h1', ← h2', hsa, hfh1']
          exact hab

/-- Witness for C7: on a fresh capacity-2 region the two allocations
return 0 then 1. -/
theorem c7_witness :
    0 < (MetaRegion.create 2).header.capacity ∧ (0 : Nat) ≠ 1 :=
  have wf : Wf (MetaRegion.create 2) :=
    ⟨by decide, by decide, [], FreeChain.nil, by simp, by simp⟩
  ⟨(c7_alloc_in_bounds_and_distinct (MetaRegion.create 2)).1 0 rfl,
   (c7_alloc_in_bounds_and_distinct (MetaRegion.create 2)).2 wf 0 1 rfl rfl⟩

/-- Dropping a guard never touches the header (in particular it never
returns the metadata slot to the free list). -/
theorem guardDrop_header (m : MetaRegion) (g : BufferGuard) :
    (guardDrop m g).header = m.header := by
  obtain ⟨d, mi, mo, rc, sr⟩ := g
  cases sr with
  | false => rfl
  | true =>
    cases d with
    | none => rfl
    | some bd =>
      cases rc with
      | none => rfl
      | some idx => rfl

/-- Dropping a forgotten guard is a no-op on the region. -/
theorem guardDrop_forget (m : MetaRegion) (g : BufferGuard) :
    guardDrop m (BufferGuard.forget g) = m := rfl

/-- An armed guard (release flag set, data owned, non-null pointer to
slot `i`) decrements slot `i` on drop. -/
theorem guardDrop_armed (m : MetaRegion) (g : BufferGuard) (i : Nat)
    (hrc : g.ref_count = some i) (hsr : g.should_release = true)
    (hd : g.data.isSome = true) :
    guardDrop m g =
      setSlot m i (fun mt => { mt with ref_count := toI32 (mt.ref_count - 1) }) := by
  have hcond : (g.should_release && g.data.isSome) = true := by
    rw [hsr, hd]
    rfl
  simp only [guardDrop, if_pos hcond, guardRelease, hrc]

/-- C4: a guard obtained from `acquire_cpu` or `get`/`get_mut` decrements
its slot's `ref_count` by exactly one when dropped — without freeing the
metadata slot (the header, hence the free list, is untouched) — while
`forget` (detach) consumes the guard without decrementing, so after
`acquire_cpu` followed by `forget` the slot's `ref_count` is still 1. -/
theorem c4_guard_drop_semantics :
    (∀ (m : MetaRegion) (g : BufferGuard), (guardDrop m g).header = m.header) ∧
    (∀ (m : MetaRegion) (g : BufferGuard), guardDrop m (BufferGuard.forget g) = m) ∧
    (∀ (env : ShmEnv) (nm : String) (m : MetaRegion) (size : Nat) (g : BufferGuard),
      m.header.capacity ≤ m.slots.length →
      (BufferPool.acquire_cpu env nm m size).1 = .ok g →
      refCountAt (BufferPool.acquire_cpu env nm m size).2 g.meta_index = 1 ∧
      refCountAt (guardDrop (BufferPool.acquire_cpu env nm m size).2 g)
        g.meta_index = 0 ∧
      refCountAt (guardDrop (BufferPool.acquire_cpu env nm m size).2
        (BufferGuard.forget g)) g.meta_index = 1) ∧
    (∀ (env : ShmEnv) (nm : String) (m : MetaRegion) (i : Nat) (mode : AccessMode)
      (g : BufferGuard),
      m.header.capacity ≤ m.slots.length →
      -2147483648 ≤ refCountAt m i → refCountAt m i < 2147483648 →
      (BufferPool.get_with_mode env nm m i mode).1 = .ok g →
      refCountAt (BufferPool.get_with_mode env nm m i mode).2 i =
        toI32 (refCountAt m i + 1) ∧
      refCountAt (guardDrop (BufferPool.get_with_mode env nm m i mode).2 g) i =
        refCountAt m i) := by
  refine ⟨guardDrop_header, guardDrop_forget, ?_, ?_⟩
  · intro env nm m size g hlen hok
    rcases hA : MetaRegion.alloc m with ⟨r, m1⟩
    cases r with
    | error e =>
      simp only [BufferPool.acquire_cpu, hA] at hok
      exact absurd hok (by simp)
    | ok idx =>
      have hidx : idx < m.header.capacity :=
        alloc_ok_lt m idx (by rw [hA])
      have hm1 : m1.slots = m.slots := by
        have h := alloc_slots m
        rw [hA] at h
        exact h
      have hilen : idx < m1.slots.length := by
        rw [hm1]
        exact lt_of_lt_of_le hidx hlen
      cases hC : env.createShm (bufferShmName nm idx) size with
      | error e =>
        simp only [BufferPool.acquire_cpu, hA, hC] at hok
        exact absurd hok (by simp)
      | ok u =>
        cases hG : MetaRegion.get m1 idx with
        | error e =>
          simp only [BufferPool.acquire_cpu, hA, hC, hG] at hok
          exact absurd hok (by simp)
        | ok meta =>
          simp only [BufferPool.acquire_cpu, hA, hC, hG] at hok
          injection hok with hg
          have hpost : (BufferPool.acquire_cpu env nm m size).2 =
              setSlot m1 idx (fun mt =>
                { mt with id := idx, ref_count := 1, storage_type := 0,
                          device_id := 0, size := size % U64MOD }) := by
            simp only [BufferPool.acquire_cpu, hA, hC, hG]
          have hmi : g.meta_index = idx := by rw [← hg]
          have hrc2 : refCountAt (BufferPool.acquire_cpu env nm m size).2
              g.meta_index = 1 := by
            rw [hmi, hpost]
            simp only [refCountAt]
            rw [getD_setSlot_self _ _ _ hilen]
          refine ⟨hrc2, ?_, ?_⟩
          · rw [guardDrop_armed _ g idx (by rw [← hg]) (by rw [← hg])
                (by rw [← hg]; rfl), hmi]
            simp only [refCountAt]
            rw [getD_setSlot_self _ _ _ (by rw [hpost, setSlot_length]; exact hilen)]
            have hv : ((BufferPool.acquire_cpu env nm m size).2.slots.getD idx
                default).ref_count = 1 := by
              have h1 := hrc2
              rw [hmi] at h1
              exact h1
            rw [hv]
            show toI32 (1 - 1) = 0
            decide
          · rw [guardDrop_forget]
            exact hrc2
  · intro env nm m i mode g hlen hlo hhi hok
    have hcap : i < m.header.capacity := by
      by_contra hc
      have hge : i ≥ m.header.capacity := not_lt.mp hc
      simp only [BufferPool.get_with_mode, MetaRegion.get, if_pos hge] at hok
      exact absurd hok (by simp)
    have hilen : i < m.slots.length := lt_of_lt_of_le hcap hlen
    have hget : MetaRegion.get m i = .ok (m.slots.getD i default) := by
      simp only [MetaRegion.get, if_neg (not_le.mpr hcap)]
    have hpost : (BufferPool.get_with_mode env nm m i mode).2 =
        setSlot m i (fun mt => { mt with ref_count := toI32 (mt.ref_count + 1) }) := by
      simp only [BufferPool.get_with_mode, hget]
      cases hf : StorageType.fromU8 ((m.slots.getD i default).storage_type) with
      | none => rfl
      | some c =>
        cases c
        cases ho : env.openShm (bufferShmName nm i) with
        | error e => rfl
        | ok sz => rfl
    have hrc2 : refCountAt (BufferPool.get_with_mode env nm m i mode).2 i =
        toI32 (refCountAt m i + 1) := by
      rw [hpost]
      simp only [refCountAt]
      rw [getD_setSlot_self _ _ _ hilen]
    have hfields : g.ref_count = some i ∧ g.should_release = true ∧
        g.data.isSome = true := by
      simp only [BufferPool.get_with_mode, hget] at hok
      cases hf : StorageType.fromU8 ((m.slots.getD i default).storage_type) with
      | none =>
        rw [hf] at hok
        exact absurd hok (by simp)
      | some c =>
        cases c
        rw [hf] at hok
        cases ho : env.openShm (bufferShmName nm i) with
        | error e =>
          rw [ho] at hok
          exact absurd hok (by simp)
        | ok sz =>
          rw [ho] at hok
          injection hok with hg2
          rw [← hg2]
          exact ⟨rfl, rfl, rfl⟩
    obtain ⟨hrc, hsr, hd⟩ := hfields
    refine ⟨hrc2, ?_⟩
    rw [guardDrop_armed _ g i hrc hsr hd]
    simp only [refCountAt]
    rw [getD_setSlot_self _ _ _ (by rw [hpost, setSlot_length]; exact hilen)]
    have hv : ((BufferPool.get_with_mode env nm m i mode).2.slots.getD i
        default).ref_count = toI32 (refCountAt m i + 1) := hrc2
    rw [hv]
    exact toI32_incr_decr _ hlo hhi

/-- Witness for C4: acquire on a fresh pool, then drop and forget. -/
theorem c4_witness :
    refCountAt (BufferPool.acquire_cpu ⟨fun _ _ => .ok (), fun _ => .ok 0⟩ "/p"
      (MetaRegion.create 2) 16).2
      (BufferGuard.meta_index
        ⟨some (.Cpu ⟨"/p_buf_0", 16⟩), 0, .ReadWrite, some 0, true⟩) = 1 ∧
    refCountAt (guardDrop
      (BufferPool.acquire_cpu ⟨fun _ _ => .ok (), fun _ => .ok 0⟩ "/p"
        (MetaRegion.create 2) 16).2
      ⟨some (.Cpu ⟨"/p_buf_0", 16⟩), 0, .ReadWrite, some 0, true⟩)
      (BufferGuard.meta_index
        ⟨some (.Cpu ⟨"/p_buf_0", 16⟩), 0, .ReadWrite, some 0, true⟩) = 0 ∧
    refCountAt (guardDrop
      (BufferPool.acquire_cpu ⟨fun _ _ => .ok (), fun _ => .ok 0⟩ "/p"
        (MetaRegion.create 2) 16).2
      (BufferGuard.forget
        ⟨some (.Cpu ⟨"/p_buf_0", 16⟩), 0, .ReadWrite, some 0, true⟩))
      (BufferGuard.meta_index
        ⟨some (.Cpu ⟨"/p_buf_0", 16⟩), 0, .ReadWrite, some 0, true⟩) = 1 :=
  c4_guard_drop_semantics.2.2.1 ⟨fun _ _ => .ok (), fun _ => .ok 0⟩ "/p"
    (MetaRegion.create 2) 16
    ⟨some (.Cpu ⟨"/p_buf_0", 16⟩), 0, .ReadWrite, some 0, true⟩
    (by decide) rfl

end XMem
